import Mathlib

/-!
Verification of the portfolio CMS backend (src/server.js): a shallow embedding of
the authorization middleware, the generic CRUD controller factory, the record
store operations, and the route wiring, with theorems settling the specified
properties.

External collaborators (the HTTP framework, the persistence engine, bcrypt and
jwt primitives) are modelled abstractly: token verification is a parameter
`verify : String → Option Claims` (`none` models a jwt.verify exception),
password verification is a parameter, and Mongo-style documents are association
lists of string fields.
-/

/-- User roles, from the user schema enum `["Administrator", "Editor"]`. -/
inductive Role where
  | Administrator
  | Editor
deriving DecidableEq, Repr

/-- The token payload built at login: `{ id: user._id, name: user.name, role: user.role }`. -/
structure Claims where
  id : Nat
  name : String
  role : Role
deriving DecidableEq, Repr

/-- Outcome of the authorization middleware on one request:
401 Unauthorized, 400 Invalid token, 403 Forbidden, or proceed to the handler
with the decoded claims attached as `req.user`. -/
inductive AuthOutcome where
  | unauthorized
  | badToken
  | forbidden
  | proceed (user : Claims)
deriving DecidableEq, Repr

/-- Token extraction from the Authorization header:
`const token = authHeader && authHeader.split(' ')[1]`.
A missing header, a header without a second space-separated chunk, or an empty
second chunk all yield a falsy token. -/
def extractToken (authHeader : Option String) : Option String :=
  match authHeader with
  | none => none
  | some h =>
    match (h.splitOn " ").get? 1 with
    | none => none
    | some t => if t = "" then none else some t

/-- The authorization gate `authMiddleware(requiredRole)`, src/server.js lines 112-129.
`verify` models `jwt.verify` with the configured secret: `none` models the thrown
exception for an invalid, malformed or expired token. -/
def authMiddleware (verify : String → Option Claims) (requiredRole : Role)
    (authHeader : Option String) : AuthOutcome :=
  match extractToken authHeader with
  | none => .unauthorized
  | some token =>
    match verify token with
    | none => .badToken
    | some decoded =>
      if requiredRole = Role.Administrator ∧ decoded.role ≠ Role.Administrator then
        .forbidden
      else
        .proceed decoded

/-! ## Documents as association lists of string fields

Mongo-style documents: resource-specific fields are an association list from
field name to value, and an update body applied with `findOneAndUpdate` or
`findByIdAndUpdate` has set-fields semantics: every supplied field is written,
every other field keeps its stored value. -/

/-- Look up field `k` in a document (first occurrence wins, as in a JSON object). -/
def lookupField (k : String) : List (String × String) → Option String
  | [] => none
  | (k', v) :: rest => if k' = k then some v else lookupField k rest

/-- Write one field of a document: replace the first binding of `k`, or append it. -/
def setField (doc : List (String × String)) (k v : String) : List (String × String) :=
  match doc with
  | [] => [(k, v)]
  | (k', v') :: rest => if k' = k then (k, v) :: rest else (k', v') :: setField rest k v

/-- Apply an update body to a document: write every supplied field in order. -/
def setFields (doc body : List (String × String)) : List (String × String) :=
  body.foldl (fun d kv => setField d kv.1 kv.2) doc

/-! ## Content records and the generic store queries -/

/-- A persisted content record (Project, Experience, Expertise, EngineeringLog):
resource-specific fields, the `published` flag, and the `createdAt` timestamp. -/
structure ContentRecord where
  id : Nat
  fields : List (String × String)
  published : Bool
  createdAt : Nat
deriving DecidableEq, Repr

/-- The Mongo sort key `sort({ createdAt: -1 })`: creation time descending. -/
def byCreatedAtDesc (a b : ContentRecord) : Prop := b.createdAt ≤ a.createdAt

instance : DecidableRel byCreatedAtDesc := fun a b => Nat.decLe b.createdAt a.createdAt

instance : IsTotal ContentRecord byCreatedAtDesc :=
  ⟨fun a b => Or.symm (Nat.le_total a.createdAt b.createdAt)⟩

instance : IsTrans ContentRecord byCreatedAtDesc :=
  ⟨fun _ _ _ hab hbc => le_trans hbc hab⟩

/-- The public list query of the CRUD controller `getPublic`:
`Model.find({ published: true }).sort({ createdAt: -1 })`. -/
def listPublished (s : List ContentRecord) : List ContentRecord :=
  List.insertionSort byCreatedAtDesc (s.filter (fun r => r.published))

/-- The admin list query of the CRUD controller `getAllAdmin`:
`Model.find({}).sort({ createdAt: -1 })`. -/
def listAll (s : List ContentRecord) : List ContentRecord :=
  List.insertionSort byCreatedAtDesc s

/-! ## Create and update of content records -/

/-- A request body for a content resource: the resource-specific fields that were
supplied, and the `published` value when the body supplies one. -/
structure ContentBody where
  fields : List (String × String)
  published : Option Bool
deriving DecidableEq, Repr

/-- `new Model(req.body)` then `save()`: the schemas default `published` to
`false` when the body does not supply it; `timestamps: true` stamps `createdAt`. -/
def createRecord (id now : Nat) (b : ContentBody) : ContentRecord :=
  { id := id, fields := b.fields, published := b.published.getD false, createdAt := now }

/-- The store after the CRUD controller `create` handler persists the new record. -/
def createContent (s : List ContentRecord) (id now : Nat) (b : ContentBody) :
    List ContentRecord :=
  createRecord id now b :: s

/-- Mongoose update semantics of a plain-object body: every supplied field is
written onto the stored record, every other field keeps its stored value. -/
def applyContentUpdate (r : ContentRecord) (b : ContentBody) : ContentRecord :=
  { r with fields := setFields r.fields b.fields,
           published := b.published.getD r.published }

/-- `Model.findByIdAndUpdate(id, body, { new: true })`: update the first record
with the given id and return the new store and the post-update record, or `none`
when no record has the id. -/
def findByIdAndUpdate (s : List ContentRecord) (id : Nat) (b : ContentBody) :
    Option (List ContentRecord × ContentRecord) :=
  match s with
  | [] => none
  | r :: rest =>
    if r.id = id then
      some (applyContentUpdate r b :: rest, applyContentUpdate r b)
    else
      match findByIdAndUpdate rest id b with
      | none => none
      | some (rest', upd) => some (r :: rest', upd)

/-- An HTTP-level handler result: a success status with a payload, or an error
status with a message. -/
inductive HttpResult (α : Type) where
  | ok (status : Nat) (body : α)
  | err (status : Nat) (message : String)
deriving DecidableEq, Repr

/-- The status code of a handler result. -/
def HttpResult.status {α : Type} : HttpResult α → Nat
  | .ok s _ => s
  | .err s _ => s

/-- The CRUD controller `update` handler, src/server.js lines 152-158: a thrown
schema-validation failure is answered 400, a missing id 404, and success 200
with the post-update record. `validate` models the schema validation the
persistence engine applies to the supplied fields. -/
def controllerUpdate (validate : ContentBody → Bool) (s : List ContentRecord)
    (id : Nat) (b : ContentBody) : HttpResult ContentRecord × List ContentRecord :=
  if validate b then
    match findByIdAndUpdate s id b with
    | none => (.err 404 "Item not found", s)
    | some (s', upd) => (.ok 200 upd, s')
  else
    (.err 400 "ValidationError", s)

/-! ## Users and login -/

/-- User status enum `["Active", "Inactive"]` from the user schema. -/
inductive UserStatus where
  | Active
  | Inactive
deriving DecidableEq, Repr

/-- A stored user document. -/
structure UserRec where
  id : Nat
  name : String
  email : String
  passwordHash : String
  role : Role
  status : UserStatus
deriving DecidableEq, Repr

/-- Result of `POST /api/auth/login`: a 200 payload carrying the signed token
together with the user name and role, or a 401 rejection. The signing primitive
is external, so a token is modelled by the claims payload it signs:
`jwt.sign(payload)` is the payload and decoding recovers it. -/
inductive LoginResult where
  | success (token : Claims) (name : String) (role : Role)
  | invalid (status : Nat) (message : String)
deriving DecidableEq, Repr

/-- The login handler, src/server.js lines 188-202. `verifyPw` models
`bcrypt.compare` of the provided password against a stored hash. -/
def login (verifyPw : String → String → Bool) (users : List UserRec)
    (email password : String) : LoginResult :=
  match users.find? (fun u => u.email == email) with
  | none => .invalid 401 "Invalid credentials or inactive user."
  | some user =>
    if user.status ≠ UserStatus.Active then
      .invalid 401 "Invalid credentials or inactive user."
    else if verifyPw password user.passwordHash then
      .success ⟨user.id, user.name, user.role⟩ user.name user.role
    else
      .invalid 401 "Invalid credentials."

/-! ## Generic find-one-and-update

The persistence engine's find-one-and-update: update the first element matching
a predicate, returning the new list and the post-update element. -/

/-- Update the first element satisfying `p`, or return `none` when none matches. -/
def updateFirst {α : Type} (p : α → Bool) (f : α → α) : List α → Option (List α × α)
  | [] => none
  | x :: rest =>
    if p x then some (f x :: rest, f x)
    else
      match updateFirst p f rest with
      | none => none
      | some (rest', upd) => some (x :: rest', upd)

/-! ## The user update route PUT /users/:id -/

/-- The request body of `PUT /users/:id`. String fields mirror JS truthiness:
an absent field and an empty string are both skipped. -/
structure UserUpdateBody where
  name : Option String
  email : Option String
  role : Option Role
  status : Option UserStatus
  password : Option String
deriving DecidableEq, Repr

/-- JS truthiness of an optional string field: absent and empty are falsy. -/
def truthy : Option String → Bool
  | none => false
  | some s => decide (s ≠ "")

/-- The `updateData` object assembled by the handler: each field only when
truthy, and `passwordHash` only when a non-empty password was supplied, in which
case the new password is hashed. -/
structure UserUpdateData where
  name : Option String
  email : Option String
  role : Option Role
  status : Option UserStatus
  passwordHash : Option String
deriving DecidableEq, Repr

/-- Build `updateData` from the request body, src/server.js lines 241-250.
`hash` models `hashPassword` (bcrypt with a fresh salt). -/
def buildUserUpdateData (hash : String → String) (b : UserUpdateBody) : UserUpdateData :=
  { name := if truthy b.name then b.name else none,
    email := if truthy b.email then b.email else none,
    role := b.role,
    status := b.status,
    passwordHash :=
      match b.password with
      | none => none
      | some p => if p.length > 0 then some (hash p) else none }

/-- `User.findByIdAndUpdate(id, updateData)` on one stored user: supplied fields
overwrite, absent fields keep their stored value. -/
def applyUserUpdate (u : UserRec) (d : UserUpdateData) : UserRec :=
  { u with
    name := d.name.getD u.name,
    email := d.email.getD u.email,
    role := d.role.getD u.role,
    status := d.status.getD u.status,
    passwordHash := d.passwordHash.getD u.passwordHash }

/-- Wire encoding of a role claim. -/
def roleStr : Role → String
  | .Administrator => "Administrator"
  | .Editor => "Editor"

/-- Wire encoding of a user status. -/
def statusStr : UserStatus → String
  | .Active => "Active"
  | .Inactive => "Inactive"

/-- The JSON document of a stored user, hash included. -/
def userDoc (u : UserRec) : List (String × String) :=
  [("id", toString u.id), ("name", u.name), ("email", u.email),
   ("role", roleStr u.role), ("status", statusStr u.status),
   ("passwordHash", u.passwordHash)]

/-- `.select('-passwordHash')`: the representation without the hash field. -/
def selectWithoutPasswordHash (doc : List (String × String)) : List (String × String) :=
  doc.filter (fun kv => kv.1 ≠ "passwordHash")

/-- The `PUT /users/:id` handler, src/server.js lines 239-256: build
`updateData`, update the addressed user, answer 404 when the id is absent, else
200 with the updated user minus the hash field. -/
def putUser (hash : String → String) (users : List UserRec) (id : Nat)
    (b : UserUpdateBody) : HttpResult (List (String × String)) × List UserRec :=
  let d := buildUserUpdateData hash b
  match updateFirst (fun u => u.id == id) (fun u => applyUserUpdate u d) users with
  | none => (.err 404 "User not found", users)
  | some (users', u') => (.ok 200 (selectWithoutPasswordHash (userDoc u')), users')

/-! ## Singleton documents (PersonalInfo, Skills) -/

/-- A singleton-collection document: the fixed marker field `singleton`
(schema default `"main"`, unique) plus the content fields. -/
structure SingletonDoc where
  singleton : String
  fields : List (String × String)
deriving DecidableEq, Repr

/-- The `getSingleton` handler, src/server.js lines 166-171:
`Model.findOne({ singleton: 'main' })`, answered `res.json(item || {})` with
status 200; `none` in the body stands for the empty object. -/
def getSingleton (docs : List SingletonDoc) : HttpResult (Option SingletonDoc) :=
  .ok 200 (docs.find? (fun d => d.singleton == "main"))

/-- The store operation of `updateSingleton`, src/server.js lines 172-181:
`findOneAndUpdate({ singleton: 'main' }, body, { new, upsert,
setDefaultsOnInsert })` — update the first main-marked document with set-fields
semantics, or insert a fresh one carrying the marker and the body fields. -/
def upsertSingleton (docs : List SingletonDoc) (body : List (String × String)) :
    List SingletonDoc × SingletonDoc :=
  match updateFirst (fun d => d.singleton == "main")
      (fun d => { d with fields := setFields d.fields body }) docs with
  | some (docs', upd) => (docs', upd)
  | none => (docs ++ [⟨"main", setFields [] body⟩], ⟨"main", setFields [] body⟩)

/-- The `updateSingleton` handler: answer 200 with the post-upsert document. -/
def updateSingleton (docs : List SingletonDoc) (body : List (String × String)) :
    HttpResult SingletonDoc × List SingletonDoc :=
  ((.ok 200 (upsertSingleton docs body).2), (upsertSingleton docs body).1)

/-! ## Keyed sections (SingleSection) -/

/-- A keyed-section document: the caller-supplied unique `sectionId` plus the
two optional content fields of the schema. -/
structure SectionDoc where
  sectionId : String
  title : Option String
  description : Option String
deriving DecidableEq, Repr

/-- `GET /api/sections/:sectionId`, src/server.js lines 275-280:
`SingleSection.findOne({ sectionId })`, answered `res.json(item || {})` with
status 200; `none` in the body stands for the empty object. -/
def getSection (docs : List SectionDoc) (sectionKey : String) :
    HttpResult (Option SectionDoc) :=
  .ok 200 (docs.find? (fun d => d.sectionId == sectionKey))

/-- The update applied by `PUT /api/sections/:sectionId` on a matched document:
`$set { title, description }`, where a field the body did not supply is dropped
from the update and keeps its stored value. -/
def applySectionUpdate (t dsc : Option String) (d : SectionDoc) : SectionDoc :=
  { d with
    title := match t with | some v => some v | none => d.title,
    description := match dsc with | some v => some v | none => d.description }

/-- `PUT /api/sections/:sectionId`, src/server.js lines 281-291: destructure
`title` and `description` from the body and upsert by the path key. -/
def putSection (docs : List SectionDoc) (sectionKey : String)
    (body : List (String × String)) : List SectionDoc × SectionDoc :=
  match updateFirst (fun d => d.sectionId == sectionKey)
      (applySectionUpdate (lookupField "title" body)
        (lookupField "description" body)) docs with
  | some (docs', upd) => (docs', upd)
  | none =>
    (docs ++ [⟨sectionKey, lookupField "title" body, lookupField "description" body⟩],
      ⟨sectionKey, lookupField "title" body, lookupField "description" body⟩)

/-! ## Route wiring of the content resources -/

/-- A wired route: HTTP method, path, and its gate — `none` when no middleware
is attached, `some role` for `authMiddleware(role)` (the default argument of
the middleware factory is Editor, the any-authenticated-role configuration). -/
structure Route where
  method : String
  path : String
  gate : Option Role
deriving DecidableEq, Repr

/-- `defineCrudRoutes(router, model, endpointName)`, src/server.js lines 206-214:
public list ungated, admin list, create and update behind the default gate,
delete behind the Administrator gate. -/
def defineCrudRoutes (endpointName : String) : List Route :=
  [ ⟨"GET", "/api/" ++ endpointName ++ "/", none⟩,
    ⟨"GET", "/api/" ++ endpointName ++ "/all", some Role.Editor⟩,
    ⟨"POST", "/api/" ++ endpointName ++ "/", some Role.Editor⟩,
    ⟨"PUT", "/api/" ++ endpointName ++ "/:id", some Role.Editor⟩,
    ⟨"DELETE", "/api/" ++ endpointName ++ "/:id", some Role.Administrator⟩ ]

/-- What reaches the handler once the gate has run: a rejection status, or the
handler running with the request user a gate attached (none for ungated routes). -/
inductive RouteOutcome where
  | rejected (status : Nat)
  | handled (user : Option Claims)
deriving DecidableEq, Repr

/-- Run the gate attached to a route. -/
def runGate (verify : String → Option Claims) (gate : Option Role)
    (authHeader : Option String) : RouteOutcome :=
  match gate with
  | none => .handled none
  | some r =>
    match authMiddleware verify r authHeader with
    | .unauthorized => .rejected 401
    | .badToken => .rejected 400
    | .forbidden => .rejected 403
    | .proceed u => .handled (some u)

/-- Dispatch one request against the wired routes of a content resource:
`none` when no route matches, otherwise the gate outcome of the first match. -/
def serveCrud (verify : String → Option Claims) (endpointName method path : String)
    (authHeader : Option String) : Option RouteOutcome :=
  ((defineCrudRoutes endpointName).find?
      (fun r => r.method == method && r.path == path)).map
    (fun r => runGate verify r.gate authHeader)

/-! ## Concrete instances used by the closing examples -/

/-- A concrete token verifier: exactly one valid token, signed for an Editor. -/
def demoVerify : String → Option Claims :=
  fun t => if t = "tok" then some ⟨7, "Ada", Role.Editor⟩ else none

/-- A concrete password verifier: password "x" against stored hash "H". -/
def demoVerifyPw : String → String → Bool :=
  fun p h => p == "x" && h == "H"

/-- A concrete password hasher. -/
def demoHash : String → String := fun p => p ++ "#h"

/-- A concrete seeded user collection. -/
def demoUsers : List UserRec :=
  [⟨1, "Admin", "a@b.com", "H", Role.Administrator, UserStatus.Active⟩]

/-! ## Theorems -/

/-- **C1.** The authorization gate yields exactly one of four outcomes, in order:
401 exactly when no bearer token is present; 400 exactly when a token is present
but fails verification; 403 exactly when the token verifies, the gate requires
Administrator and the claim role is not Administrator; otherwise it proceeds with
the decoded claims attached. -/
theorem authMiddleware_four_outcomes (verify : String → Option Claims)
    (requiredRole : Role) (authHeader : Option String) :
    (authMiddleware verify requiredRole authHeader = .unauthorized ↔
      extractToken authHeader = none) ∧
    (authMiddleware verify requiredRole authHeader = .badToken ↔
      ∃ t, extractToken authHeader = some t ∧ verify t = none) ∧
    (authMiddleware verify requiredRole authHeader = .forbidden ↔
      ∃ t c, extractToken authHeader = some t ∧ verify t = some c ∧
        requiredRole = Role.Administrator ∧ c.role ≠ Role.Administrator) ∧
    (∀ c, authMiddleware verify requiredRole authHeader = .proceed c ↔
      ∃ t, extractToken authHeader = some t ∧ verify t = some c ∧
        (requiredRole = Role.Administrator → c.role = Role.Administrator)) := by
  cases hx : extractToken authHeader with
  | none => simp [authMiddleware, hx]
  | some t =>
    cases hv : verify t with
    | none => simp [authMiddleware, hx, hv]
    | some c =>
      by_cases hreq : requiredRole = Role.Administrator ∧ c.role ≠ Role.Administrator
      · simp [authMiddleware, hx, hv, if_pos hreq, hreq.1, hreq.2]
      · simp only [authMiddleware, hx, hv, if_neg hreq]
        push_neg at hreq
        constructor
        · simp
        constructor
        · simp [hv]
        constructor
        · simp only [Option.some.injEq]
          constructor
          · intro h; cases h
          · rintro ⟨t', c', ht', hv', hr, hrole⟩
            subst ht'
            rw [hv'] at hv
            injection hv with h2
            subst h2
            exact ((hrole (hreq hr))).elim
        · intro c'
          simp only [Option.some.injEq, AuthOutcome.proceed.injEq]
          constructor
          · intro h
            subst h
            exact ⟨t, rfl, hv, hreq⟩
          · rintro ⟨t', ht', hv', _⟩
            subst ht'
            rw [hv'] at hv
            injection hv with h2
            subst h2
            rfl

theorem lookupField_setField_self (doc : List (String × String)) (k v : String) :
    lookupField k (setField doc k v) = some v := by
  induction doc with
  | nil => simp [setField, lookupField]
  | cons p rest ih =>
    obtain ⟨k', v'⟩ := p
    by_cases h : k' = k
    · simp [setField, h, lookupField]
    · simp [setField, h, lookupField, ih]

theorem lookupField_setField_ne (doc : List (String × String)) (k v q : String)
    (hne : q ≠ k) : lookupField q (setField doc k v) = lookupField q doc := by
  have hkq : ¬ k = q := fun h => hne h.symm
  induction doc with
  | nil => simp [setField, lookupField, hkq]
  | cons p rest ih =>
    obtain ⟨k', v'⟩ := p
    by_cases h : k' = k
    · subst h
      simp [setField, lookupField, hkq]
    · simp only [setField, if_neg h, lookupField]
      by_cases hq : k' = q
      · simp [hq]
      · simp [hq, ih]

theorem lookupField_setFields_not_mem (doc body : List (String × String)) (q : String)
    (h : q ∉ body.map Prod.fst) :
    lookupField q (setFields doc body) = lookupField q doc := by
  induction body generalizing doc with
  | nil => rfl
  | cons p rest ih =>
    obtain ⟨k, v⟩ := p
    simp only [List.map_cons, List.mem_cons] at h
    push_neg at h
    simp only [setFields, List.foldl_cons]
    rw [show (rest.foldl (fun d kv => setField d kv.1 kv.2) (setField doc k v)) =
        setFields (setField doc k v) rest from rfl, ih _ h.2,
      lookupField_setField_ne _ _ _ _ h.1]

theorem lookupField_setFields_mem (doc body : List (String × String)) (k v : String)
    (hnd : (body.map Prod.fst).Nodup) (hmem : (k, v) ∈ body) :
    lookupField k (setFields doc body) = some v := by
  induction body generalizing doc with
  | nil => cases hmem
  | cons p rest ih =>
    obtain ⟨k₀, v₀⟩ := p
    simp only [List.map_cons, List.nodup_cons] at hnd
    simp only [setFields, List.foldl_cons]
    rcases List.mem_cons.mp hmem with heq | htail
    · injection heq with h1 h2
      subst h1; subst h2
      rw [show (rest.foldl (fun d kv => setField d kv.1 kv.2) (setField doc k v)) =
          setFields (setField doc k v) rest from rfl,
        lookupField_setFields_not_mem _ _ _ hnd.1, lookupField_setField_self]
    · exact ih _ hnd.2 htail

theorem mem_listPublished (s : List ContentRecord) (r : ContentRecord) :
    r ∈ listPublished s ↔ r ∈ s ∧ r.published = true := by
  rw [listPublished, List.mem_insertionSort, List.mem_filter]

/-- **C2.** For every store state, the public list returns exactly the records
whose published flag is true (as a permutation of the published sublist, and as
a membership equivalence), sorted by creation time descending, regardless of how
many records the collection holds. -/
theorem listPublished_exactly_published_sorted (s : List ContentRecord) :
    (∀ r, r ∈ listPublished s ↔ r ∈ s ∧ r.published = true) ∧
    (listPublished s).Perm (s.filter (fun r => r.published)) ∧
    (listPublished s).Sorted byCreatedAtDesc :=
  ⟨fun r => mem_listPublished s r, List.perm_insertionSort _ _,
    List.sorted_insertionSort _ _⟩

theorem findByIdAndUpdate_eq_none_iff (s : List ContentRecord) (id : Nat)
    (b : ContentBody) :
    findByIdAndUpdate s id b = none ↔ ∀ r ∈ s, r.id ≠ id := by
  induction s with
  | nil => simp [findByIdAndUpdate]
  | cons r rest ih =>
    by_cases h : r.id = id
    · simp [findByIdAndUpdate, h]
    · simp only [findByIdAndUpdate, if_neg h]
      cases hrec : findByIdAndUpdate rest id b with
      | none =>
        rw [hrec] at ih
        simp only [List.mem_cons, ne_eq]
        constructor
        · intro _
          rintro x (rfl | hx)
          · exact h
          · exact ih.mp rfl x hx
        · intro _
          trivial
      | some p =>
        rw [hrec] at ih
        simp only [List.mem_cons, ne_eq]
        constructor
        · intro hcontr
          cases hcontr
        · intro hall
          exact absurd (fun x hx => hall x (Or.inr hx)) (fun hc => by
            have := ih.mpr hc
            cases this)

theorem findByIdAndUpdate_of_find (s : List ContentRecord) (id : Nat)
    (b : ContentBody) (r : ContentRecord)
    (h : s.find? (fun x => x.id = id) = some r) :
    ∃ s', findByIdAndUpdate s id b = some (s', applyContentUpdate r b) := by
  induction s with
  | nil => cases h
  | cons x rest ih =>
    by_cases hx : x.id = id
    · rw [List.find?_cons_of_pos _ (by simp [hx])] at h
      injection h with h2
      subst h2
      exact ⟨applyContentUpdate x b :: rest, by simp [findByIdAndUpdate, hx]⟩
    · rw [List.find?_cons_of_neg _ (by simp [hx])] at h
      obtain ⟨s', hs'⟩ := ih h
      exact ⟨x :: s', by simp [findByIdAndUpdate, hx, hs']⟩

/-- **C7.** The generic update is a partial update answering the right statuses:
400 when the supplied fields fail schema validation; 404 when no record has the
id; otherwise 200 with the post-update record, in which every supplied field is
written, every field not supplied keeps its stored value, an absent `published`
stays as stored, and the id and creation time are untouched. -/
theorem controllerUpdate_partial_update_statuses (validate : ContentBody → Bool)
    (s : List ContentRecord) (id : Nat) (b : ContentBody) :
    (validate b = false → (controllerUpdate validate s id b).1.status = 400) ∧
    (validate b = true → (∀ r ∈ s, r.id ≠ id) →
      (controllerUpdate validate s id b).1.status = 404) ∧
    (validate b = true → ∀ r, s.find? (fun x => x.id = id) = some r →
      (controllerUpdate validate s id b).1 = .ok 200 (applyContentUpdate r b) ∧
      (∀ q v, (q, v) ∈ b.fields → (b.fields.map Prod.fst).Nodup →
        lookupField q (applyContentUpdate r b).fields = some v) ∧
      (∀ q, q ∉ b.fields.map Prod.fst →
        lookupField q (applyContentUpdate r b).fields = lookupField q r.fields) ∧
      (b.published = none → (applyContentUpdate r b).published = r.published) ∧
      (applyContentUpdate r b).id = r.id ∧
      (applyContentUpdate r b).createdAt = r.createdAt) := by
  refine ⟨?_, ?_, ?_⟩
  · intro hval
    simp [controllerUpdate, hval, HttpResult.status]
  · intro hval habsent
    have hnone : findByIdAndUpdate s id b = none :=
      (findByIdAndUpdate_eq_none_iff s id b).mpr habsent
    simp [controllerUpdate, hval, hnone, HttpResult.status]
  · intro hval r hfind
    obtain ⟨s', hs'⟩ := findByIdAndUpdate_of_find s id b r hfind
    refine ⟨by simp [controllerUpdate, hval, hs'], ?_, ?_, ?_, rfl, rfl⟩
    · intro q v hmem hnd
      exact lookupField_setFields_mem r.fields b.fields q v hnd hmem
    · intro q hq
      exact lookupField_setFields_not_mem r.fields b.fields q hq
    · intro hpub
      simp [applyContentUpdate, hpub]

/-- **C10.** A content record created without an explicit `published` field
defaults to `published = false` and is absent from the public list; the public
list of the new store still shows only previously stored records; and once an
update explicitly sets `published` to true, the record appears in the public
list. -/
theorem create_default_unpublished (s : List ContentRecord) (id now : Nat)
    (b : ContentBody) (hb : b.published = none) :
    (createRecord id now b).published = false ∧
    createRecord id now b ∉ listPublished (createContent s id now b) ∧
    (∀ r, r ∈ listPublished (createContent s id now b) → r ∈ s) ∧
    (∀ b' s' upd, b'.published = some true →
      findByIdAndUpdate (createContent s id now b) id b' = some (s', upd) →
      upd ∈ listPublished s') := by
  have hpub : (createRecord id now b).published = false := by
    simp [createRecord, hb]
  refine ⟨hpub, ?_, ?_, ?_⟩
  · intro hmem
    have := (mem_listPublished (createContent s id now b) (createRecord id now b)).mp hmem
    rw [hpub] at this
    cases this.2
  · intro r hmem
    have hr := (mem_listPublished (createContent s id now b) r).mp hmem
    rcases List.mem_cons.mp hr.1 with heq | htail
    · exfalso
      rw [heq] at hr
      rw [hpub] at hr
      cases hr.2
    · exact htail
  · intro b' s' upd hb' hupd
    have hhead : (createRecord id now b).id = id := rfl
    simp only [createContent, findByIdAndUpdate, hhead, if_pos rfl] at hupd
    injection hupd with h2
    injection h2 with h3 h4
    subst h3
    subst h4
    refine (mem_listPublished _ _).mpr ⟨List.mem_cons_self _ _, ?_⟩
    simp [applyContentUpdate, hb']

/-- **C3.** For the user record found for the supplied email: with the correct
password, login succeeds exactly when the user is Active, and then the token
claims carry that user id and role; an Inactive user is rejected 401 even with
the correct password; an Active user with a wrong password is rejected 401. -/
theorem login_active_iff_success (verifyPw : String → String → Bool)
    (users : List UserRec) (email password : String) (u : UserRec)
    (hfind : users.find? (fun x => x.email == email) = some u) :
    (verifyPw password u.passwordHash = true →
      ((∃ tok nm rl, login verifyPw users email password = .success tok nm rl) ↔
        u.status = UserStatus.Active)) ∧
    (u.status = UserStatus.Active → verifyPw password u.passwordHash = true →
      login verifyPw users email password =
        .success ⟨u.id, u.name, u.role⟩ u.name u.role) ∧
    (u.status = UserStatus.Inactive →
      login verifyPw users email password =
        .invalid 401 "Invalid credentials or inactive user.") ∧
    (u.status = UserStatus.Active → verifyPw password u.passwordHash = false →
      login verifyPw users email password = .invalid 401 "Invalid credentials.") := by
  refine ⟨?_, ?_, ?_, ?_⟩
  · intro hpw
    cases hst : u.status with
    | Active =>
      simp only [login, hfind, hst]
      constructor
      · intro _
        trivial
      · intro _
        simp [hpw]
    | Inactive =>
      simp only [login, hfind, hst]
      constructor
      · rintro ⟨tok, nm, rl, h⟩
        simp at h
      · intro h
        cases h
  · intro hst hpw
    simp [login, hfind, hst, hpw]
  · intro hst
    simp [login, hfind, hst]
  · intro hst hpw
    simp [login, hfind, hst, hpw]

theorem updateFirst_eq_none_iff {α : Type} (p : α → Bool) (f : α → α) (l : List α) :
    updateFirst p f l = none ↔ ∀ x ∈ l, p x = false := by
  induction l with
  | nil => simp [updateFirst]
  | cons x rest ih =>
    by_cases hx : p x
    · simp [updateFirst, hx]
    · simp only [updateFirst, if_neg hx]
      cases hrec : updateFirst p f rest with
      | none =>
        rw [hrec] at ih
        simp only [List.mem_cons, true_iff]
        rintro y (rfl | hy)
        · exact Bool.eq_false_iff.mpr hx
        · exact ih.mp rfl y hy
      | some q =>
        rw [hrec] at ih
        simp only [List.mem_cons]
        constructor
        · intro hcontr
          cases hcontr
        · intro hall
          exact absurd (fun y hy => hall y (Or.inr hy)) (fun hc => by
            have := ih.mpr hc
            cases this)

theorem updateFirst_of_find {α : Type} (p : α → Bool) (f : α → α) (l : List α)
    (x : α) (h : l.find? p = some x) :
    ∃ l', updateFirst p f l = some (l', f x) := by
  induction l with
  | nil => cases h
  | cons y rest ih =>
    by_cases hy : p y
    · rw [List.find?_cons_of_pos _ hy] at h
      injection h with h2
      subst h2
      exact ⟨f y :: rest, by simp [updateFirst, hy]⟩
    · rw [List.find?_cons_of_neg _ hy] at h
      obtain ⟨l', hl'⟩ := ih h
      exact ⟨y :: l', by simp [updateFirst, hy, hl']⟩

theorem updateFirst_some_mem {α : Type} (p : α → Bool) (f : α → α) (l l' : List α)
    (u : α) (h : updateFirst p f l = some (l', u)) :
    ∃ x, x ∈ l ∧ p x = true ∧ u = f x := by
  induction l generalizing l' with
  | nil => cases h
  | cons y rest ih =>
    by_cases hy : p y
    · simp only [updateFirst, if_pos hy] at h
      injection h with h2
      injection h2 with h3 h4
      exact ⟨y, List.mem_cons_self _ _, hy, h4.symm⟩
    · simp only [updateFirst, if_neg hy] at h
      cases hrec : updateFirst p f rest with
      | none =>
        rw [hrec] at h
        cases h
      | some q =>
        rw [hrec] at h
        obtain ⟨rest', upd⟩ := q
        injection h with h2
        injection h2 with h3 h4
        subst h4
        obtain ⟨x, hx, hpx, hux⟩ := ih rest' hrec
        exact ⟨x, List.mem_cons_of_mem _ hx, hpx, hux⟩

theorem updateFirst_append_not_mem {α : Type} (p : α → Bool) (f : α → α)
    (l : List α) (m : α) (hl : ∀ x ∈ l, p x = false) (hm : p m = true) :
    updateFirst p f (l ++ [m]) = some (l ++ [f m], f m) := by
  induction l with
  | nil => simp [updateFirst, hm]
  | cons y rest ih =>
    have hy : p y = false := hl y (List.mem_cons_self _ _)
    have hrest := ih (fun x hx => hl x (List.mem_cons_of_mem _ hx))
    simp [updateFirst, hy, hrest]

/-- **C4.** For an existing user: an absent or empty password field leaves the
stored hash unchanged; a non-empty password field replaces the stored hash with
a hash of the new password; and the 200 response carries the updated user with
the password hash field stripped. -/
theorem putUser_password_handling (hash : String → String) (users : List UserRec)
    (id : Nat) (b : UserUpdateBody) (u : UserRec)
    (hfind : users.find? (fun x => x.id == id) = some u) :
    ((putUser hash users id b).1 = .ok 200 (selectWithoutPasswordHash
      (userDoc (applyUserUpdate u (buildUserUpdateData hash b))))) ∧
    (truthy b.password = false →
      (applyUserUpdate u (buildUserUpdateData hash b)).passwordHash = u.passwordHash) ∧
    (∀ p, b.password = some p → p ≠ "" →
      (applyUserUpdate u (buildUserUpdateData hash b)).passwordHash = hash p) ∧
    (lookupField "passwordHash" (selectWithoutPasswordHash
      (userDoc (applyUserUpdate u (buildUserUpdateData hash b)))) = none) := by
  refine ⟨?_, ?_, ?_, ?_⟩
  · obtain ⟨users', hupd⟩ := updateFirst_of_find (fun x => x.id == id)
      (fun x => applyUserUpdate x (buildUserUpdateData hash b)) users u hfind
    simp [putUser, hupd]
  · intro htr
    cases hp : b.password with
    | none =>
      simp [applyUserUpdate, buildUserUpdateData, hp]
    | some p =>
      rw [hp] at htr
      simp only [truthy, decide_eq_false_iff_not, ne_eq, not_not] at htr
      subst htr
      simp [applyUserUpdate, buildUserUpdateData, hp]
  · intro p hp hne
    have hlen : p.length > 0 := by
      cases hzero : p.length with
      | zero =>
        have hdata : p.data = [] := List.length_eq_zero.mp hzero
        exact absurd (String.ext hdata) hne
      | succ n => exact Nat.succ_pos n
    simp [applyUserUpdate, buildUserUpdateData, hp, hlen]
  · simp [selectWithoutPasswordHash, userDoc, lookupField]

/-- **C6.** Starting from a collection with no singleton record, the first
upsert creates the record and the second updates the same record: after both,
the collection holds exactly one main-marked document, it is the returned one,
it carries every field of the second body, and the handler always answers 200. -/
theorem upsertSingleton_create_then_update (docs : List SingletonDoc)
    (b1 b2 : List (String × String))
    (hmain : ∀ d ∈ docs, d.singleton ≠ "main") :
    (((upsertSingleton docs b1).1.filter (fun d => d.singleton == "main")).length = 1) ∧
    (((upsertSingleton (upsertSingleton docs b1).1 b2).1.filter
        (fun d => d.singleton == "main")).length = 1) ∧
    ((upsertSingleton (upsertSingleton docs b1).1 b2).1.filter
        (fun d => d.singleton == "main") =
      [(upsertSingleton (upsertSingleton docs b1).1 b2).2]) ∧
    ((upsertSingleton (upsertSingleton docs b1).1 b2).2.singleton = "main") ∧
    ((b2.map Prod.fst).Nodup → ∀ k v, (k, v) ∈ b2 →
      lookupField k (upsertSingleton (upsertSingleton docs b1).1 b2).2.fields = some v) ∧
    (docs = [] → (upsertSingleton (upsertSingleton docs b1).1 b2).1 =
      [(upsertSingleton (upsertSingleton docs b1).1 b2).2]) ∧
    (∀ (ds : List SingletonDoc) (b : List (String × String)),
      (updateSingleton ds b).1.status = 200) := by
  have hpfalse : ∀ d ∈ docs, (d.singleton == "main") = false :=
    fun d hd => beq_eq_false_iff_ne.mpr (hmain d hd)
  have hnone : updateFirst (fun d => d.singleton == "main")
      (fun d => { d with fields := setFields d.fields b1 }) docs = none :=
    (updateFirst_eq_none_iff _ _ _).mpr hpfalse
  have hs1 : upsertSingleton docs b1 =
      (docs ++ [⟨"main", setFields [] b1⟩], ⟨"main", setFields [] b1⟩) := by
    simp [upsertSingleton, hnone]
  have happ := updateFirst_append_not_mem (fun d => d.singleton == "main")
    (fun d => { d with fields := setFields d.fields b2 }) docs
    ⟨"main", setFields [] b1⟩ hpfalse (by simp)
  have hs2 : upsertSingleton (upsertSingleton docs b1).1 b2 =
      (docs ++ [⟨"main", setFields (setFields [] b1) b2⟩],
        ⟨"main", setFields (setFields [] b1) b2⟩) := by
    rw [hs1]
    simp [upsertSingleton, happ]
  have hfilter : docs.filter (fun d => d.singleton == "main") = [] :=
    List.filter_eq_nil_iff.mpr (fun d hd => by simp [hpfalse d hd])
  refine ⟨?_, ?_, ?_, ?_, ?_, ?_, ?_⟩
  · rw [hs1]
    simp [List.filter_append, hfilter]
  · rw [hs2]
    simp [List.filter_append, hfilter]
  · rw [hs2]
    simp [List.filter_append, hfilter]
  · rw [hs2]
  · intro hnd k v hkv
    rw [hs2]
    exact lookupField_setFields_mem _ _ _ _ hnd hkv
  · intro hempty
    rw [hs2, hempty]
    rfl
  · intro ds b
    rfl

/-- **C5.** The singleton get and the keyed-section get always answer 200, and
answer the empty object — never 404 — when no matching record exists. -/
theorem getSingleton_getSection_empty_not_error (docs : List SingletonDoc)
    (sdocs : List SectionDoc) (sectionKey : String) :
    ((getSingleton docs).status = 200) ∧
    ((∀ d ∈ docs, d.singleton ≠ "main") → getSingleton docs = .ok 200 none) ∧
    ((getSection sdocs sectionKey).status = 200) ∧
    ((∀ d ∈ sdocs, d.sectionId ≠ sectionKey) →
      getSection sdocs sectionKey = .ok 200 none) := by
  refine ⟨rfl, ?_, rfl, ?_⟩
  · intro hnone
    have : docs.find? (fun d => d.singleton == "main") = none :=
      List.find?_eq_none.mpr (fun d hd => by simp [hnone d hd])
    simp [getSingleton, this]
  · intro hnone
    have : sdocs.find? (fun d => d.sectionId == sectionKey) = none :=
      List.find?_eq_none.mpr (fun d hd => by simp [hnone d hd])
    simp [getSection, this]

/-- **C9.** The keyed-section upsert persists only the title and description
fields of the body — two bodies agreeing on those two fields produce identical
results, so any other field is ignored — the persisted record's key is the path
parameter, never anything from the body, and a supplied title or description is
stored. -/
theorem putSection_only_title_description (docs : List SectionDoc)
    (sectionKey : String) (b b1 b2 : List (String × String)) :
    ((lookupField "title" b1 = lookupField "title" b2 →
      lookupField "description" b1 = lookupField "description" b2 →
      putSection docs sectionKey b1 = putSection docs sectionKey b2)) ∧
    ((putSection docs sectionKey b).2.sectionId = sectionKey) ∧
    (∀ v, lookupField "title" b = some v →
      (putSection docs sectionKey b).2.title = some v) ∧
    (∀ v, lookupField "description" b = some v →
      (putSection docs sectionKey b).2.description = some v) := by
  refine ⟨?_, ?_, ?_, ?_⟩
  · intro ht hd
    simp only [putSection, ht, hd]
  · cases hu : updateFirst (fun d => d.sectionId == sectionKey)
        (applySectionUpdate (lookupField "title" b)
          (lookupField "description" b)) docs with
    | none => simp [putSection, hu]
    | some q =>
      obtain ⟨docs', upd⟩ := q
      obtain ⟨x, hx, hpx, hux⟩ := updateFirst_some_mem _ _ _ _ _ hu
      have hxkey : x.sectionId = sectionKey := by
        simpa using hpx
      simp only [putSection, hu]
      rw [hux]
      simpa [applySectionUpdate] using hxkey
  · intro v hv
    cases hu : updateFirst (fun d => d.sectionId == sectionKey)
        (applySectionUpdate (some v) (lookupField "description" b)) docs with
    | none => simp [putSection, hv, hu]
    | some q =>
      obtain ⟨docs', upd⟩ := q
      obtain ⟨x, hx, hpx, hux⟩ := updateFirst_some_mem _ _ _ _ _ hu
      simp only [putSection, hv, hu]
      rw [hux]
      simp [applySectionUpdate]
  · intro v hv
    cases hu : updateFirst (fun d => d.sectionId == sectionKey)
        (applySectionUpdate (lookupField "title" b) (some v)) docs with
    | none => simp [putSection, hv, hu]
    | some q =>
      obtain ⟨docs', upd⟩ := q
      obtain ⟨x, hx, hpx, hux⟩ := updateFirst_some_mem _ _ _ _ _ hu
      simp only [putSection, hv, hu]
      rw [hux]
      simp [applySectionUpdate]

theorem path_ne_all (ep : String) :
    ("/api/" ++ ep ++ "/") ≠ ("/api/" ++ ep ++ "/all") := by
  intro h
  have h2 := congrArg String.length h
  simp [String.length_append] at h2
  exact absurd h2 (by decide)

/-- **C8.** The route wiring of every content resource: the public list needs no
authentication; admin list, create and update run for any authenticated role;
delete needs the Administrator role. Hence an unauthenticated POST is rejected
401 and an authenticated non-administrator DELETE is rejected 403. -/
theorem defineCrudRoutes_gates (ep : String) (verify : String → Option Claims)
    (hdr : Option String) (t : String) (c : Claims) :
    (serveCrud verify ep "GET" ("/api/" ++ ep ++ "/") hdr =
      some (.handled none)) ∧
    (serveCrud verify ep "POST" ("/api/" ++ ep ++ "/") none =
      some (.rejected 401)) ∧
    (serveCrud verify ep "DELETE" ("/api/" ++ ep ++ "/:id") none =
      some (.rejected 401)) ∧
    (extractToken hdr = some t → verify t = some c →
      (serveCrud verify ep "POST" ("/api/" ++ ep ++ "/") hdr =
        some (.handled (some c))) ∧
      (serveCrud verify ep "PUT" ("/api/" ++ ep ++ "/:id") hdr =
        some (.handled (some c))) ∧
      (serveCrud verify ep "GET" ("/api/" ++ ep ++ "/all") hdr =
        some (.handled (some c))) ∧
      (c.role ≠ Role.Administrator →
        serveCrud verify ep "DELETE" ("/api/" ++ ep ++ "/:id") hdr =
          some (.rejected 403)) ∧
      (c.role = Role.Administrator →
        serveCrud verify ep "DELETE" ("/api/" ++ ep ++ "/:id") hdr =
          some (.handled (some c)))) := by
  have hne : (("/api/" ++ ep ++ "/") == ("/api/" ++ ep ++ "/all")) = false :=
    beq_eq_false_iff_ne.mpr (path_ne_all ep)
  have hne2 : (("/api/" ++ ep ++ "/") == ("/api/" ++ ep ++ "/all")) ≠ true := by
    simp [hne]
  refine ⟨?_, ?_, ?_, ?_⟩
  · simp [serveCrud, defineCrudRoutes, List.find?, runGate]
  · simp [serveCrud, defineCrudRoutes, List.find?, runGate, authMiddleware, extractToken]
  · simp [serveCrud, defineCrudRoutes, List.find?, runGate, authMiddleware, extractToken]
  · intro hx hv
    have hmidE : authMiddleware verify Role.Editor hdr = .proceed c := by
      simp [authMiddleware, hx, hv]
    refine ⟨?_, ?_, ?_, ?_, ?_⟩
    · simp [serveCrud, defineCrudRoutes, List.find?, runGate, hmidE]
    · simp [serveCrud, defineCrudRoutes, List.find?, runGate, hmidE]
    · simp [serveCrud, defineCrudRoutes, List.find?, runGate, hmidE, hne]
    · intro hrole
      have hmidA : authMiddleware verify Role.Administrator hdr = .forbidden := by
        simp [authMiddleware, hx, hv, hrole]
      simp [serveCrud, defineCrudRoutes, List.find?, runGate, hmidA]
    · intro hrole
      have hmidA : authMiddleware verify Role.Administrator hdr = .proceed c := by
        simp [authMiddleware, hx, hv, hrole]
      simp [serveCrud, defineCrudRoutes, List.find?, runGate, hmidA]

/-- Witness for the login theorem at the seeded administrator: the correct
password logs in with the expected claims, the wrong one is rejected 401. -/
theorem login_active_iff_success_witness :
    login demoVerifyPw demoUsers "a@b.com" "x" =
      .success ⟨1, "Admin", Role.Administrator⟩ "Admin" Role.Administrator ∧
    login demoVerifyPw demoUsers "a@b.com" "y" = .invalid 401 "Invalid credentials." :=
  ⟨(login_active_iff_success demoVerifyPw demoUsers "a@b.com" "x"
      ⟨1, "Admin", "a@b.com", "H", Role.Administrator, UserStatus.Active⟩
      (by decide)).2.1 rfl (by decide),
   (login_active_iff_success demoVerifyPw demoUsers "a@b.com" "y"
      ⟨1, "Admin", "a@b.com", "H", Role.Administrator, UserStatus.Active⟩
      (by decide)).2.2.2 rfl (by decide)⟩

/-- Witness for the user update theorem: an empty password keeps the stored
hash, a non-empty one replaces it with its hash, and the response document has
no hash field. -/
theorem putUser_password_handling_witness :
    (applyUserUpdate ⟨1, "Admin", "a@b.com", "H", Role.Administrator, UserStatus.Active⟩
      (buildUserUpdateData demoHash ⟨none, none, none, none, some ""⟩)).passwordHash = "H" ∧
    (applyUserUpdate ⟨1, "Admin", "a@b.com", "H", Role.Administrator, UserStatus.Active⟩
      (buildUserUpdateData demoHash ⟨none, none, none, none, some "npw"⟩)).passwordHash =
        "npw#h" ∧
    lookupField "passwordHash" (selectWithoutPasswordHash (userDoc
      (applyUserUpdate ⟨1, "Admin", "a@b.com", "H", Role.Administrator, UserStatus.Active⟩
        (buildUserUpdateData demoHash ⟨none, none, none, none, some "npw"⟩)))) = none :=
  ⟨(putUser_password_handling demoHash demoUsers 1 ⟨none, none, none, none, some ""⟩
      ⟨1, "Admin", "a@b.com", "H", Role.Administrator, UserStatus.Active⟩
      (by decide)).2.1 (by decide),
   (putUser_password_handling demoHash demoUsers 1 ⟨none, none, none, none, some "npw"⟩
      ⟨1, "Admin", "a@b.com", "H", Role.Administrator, UserStatus.Active⟩
      (by decide)).2.2.1 "npw" rfl (by decide),
   (putUser_password_handling demoHash demoUsers 1 ⟨none, none, none, none, some "npw"⟩
      ⟨1, "Admin", "a@b.com", "H", Role.Administrator, UserStatus.Active⟩
      (by decide)).2.2.2⟩

/-- Witness for the singleton upsert theorem: two upserts from the empty
collection leave exactly one main-marked document, holding the second body. -/
theorem upsertSingleton_create_then_update_witness :
    (((upsertSingleton (upsertSingleton [] [("name", "A")]).1 [("title", "B")]).1.filter
        (fun d => d.singleton == "main")).length = 1) ∧
    lookupField "title"
      (upsertSingleton (upsertSingleton [] [("name", "A")]).1 [("title", "B")]).2.fields =
        some "B" :=
  ⟨(upsertSingleton_create_then_update [] [("name", "A")] [("title", "B")]
      (by intro d hd; cases hd)).2.1,
   (upsertSingleton_create_then_update [] [("name", "A")] [("title", "B")]
      (by intro d hd; cases hd)).2.2.2.2.1 (by decide) "title" "B" (by decide)⟩

/-- Witness for the publish-default theorem: a record created without a
published field is unpublished and invisible on the public list. -/
theorem create_default_unpublished_witness :
    (createRecord 1 5 ⟨[("title", "X")], none⟩).published = false ∧
    createRecord 1 5 ⟨[("title", "X")], none⟩ ∉
      listPublished (createContent [] 1 5 ⟨[("title", "X")], none⟩) :=
  ⟨(create_default_unpublished [] 1 5 ⟨[("title", "X")], none⟩ rfl).1,
   (create_default_unpublished [] 1 5 ⟨[("title", "X")], none⟩ rfl).2.1⟩
